import Mathlib

/-!
Shallow embedding of `padTransf.py` (padded-transformations repository).

The module provides `warpPerspectivePadded` and `warpAffinePadded`: given a
source image, destination image and a transform (3x3 homography or 2x3
affine), they project the source corners through the transform, compute an
integer bounding box, shift the transform so all projected coordinates are
non-negative, pad the destination accordingly and call an external OpenCV
resampler (`cv2.warpPerspective` / `cv2.warpAffine`), treated as a black box.

Modelling choices:
* numpy float arrays are embedded over `ℚ`; matrices are lists of rows
  (`Mat`), so a shape mismatch is representable and the shape `assert` is a
  real check returning `Except.error`.
* `ℚ` division by zero yields `0` (junk), mirroring that the Python code
  performs the division unguarded; a separate IEEE-style domain `FVal`
  (finite, +Inf, -Inf, NaN) tracks the float behaviour of the unguarded
  homogeneous division and of `np.min`/`np.max` (NaN propagates through
  both, the infinities are ordered below/above every finite value) for the
  safety claim about degenerate homographies.
* images are `Img`: a numpy-style shape (list of dimension lengths) plus a
  pixel function indexed by a coordinate list; `np.pad` is `npPad`; numpy
  array equality is the extensional `Img.extEq`.
* the external resampler is a parameter of the warp functions; claims that
  depend on its behaviour assume exactly the properties the spec grants it
  (it returns an image of the requested output dimensions).
-/

/-- A numpy 2-D float matrix, embedded as a list of rows over `ℚ`. -/
def Mat : Type := List (List ℚ)

instance : DecidableEq Mat := by unfold Mat; infer_instance

/-- `m.shape` of a 2-D numpy array: (number of rows, number of columns). -/
def matShape (m : Mat) : ℕ × ℕ := (m.length, (m.headD []).length)

/-- Entry access `m[i, j]`, total with default 0. -/
def mget (m : Mat) (i j : ℕ) : ℚ := (m.getD i []).getD j 0

/-- Elementwise division of a matrix by a scalar (`transf / transf[2, 2]`). -/
def matDivScalar (m : Mat) (s : ℚ) : Mat := m.map (List.map (· / s))

/-- Elementwise matrix addition (`transf + [[0,0,ax],[0,0,ay]]`). -/
def matAdd (a b : Mat) : Mat := List.zipWith (List.zipWith (· + ·)) a b

/-- One entry of a 3x3 matrix product. -/
def mul3entry (a b : Mat) (i j : ℕ) : ℚ :=
  mget a i 0 * mget b 0 j + mget a i 1 * mget b 1 j + mget a i 2 * mget b 2 j

/-- 3x3 matrix product (`transl_transf.dot(transf)`). -/
def matMul3 (a b : Mat) : Mat :=
  [[mul3entry a b 0 0, mul3entry a b 0 1, mul3entry a b 0 2],
   [mul3entry a b 1 0, mul3entry a b 1 1, mul3entry a b 1 2],
   [mul3entry a b 2 0, mul3entry a b 2 1, mul3entry a b 2 2]]

/-- Determinant of a 3x3 matrix. -/
def det3 (m : Mat) : ℚ :=
  mget m 0 0 * (mget m 1 1 * mget m 2 2 - mget m 1 2 * mget m 2 1)
  - mget m 0 1 * (mget m 1 0 * mget m 2 2 - mget m 1 2 * mget m 2 0)
  + mget m 0 2 * (mget m 1 0 * mget m 2 1 - mget m 1 1 * mget m 2 0)

/-- `cv2.invert` on a 3x3 matrix: adjugate over determinant. -/
def inv3 (m : Mat) : Mat :=
  let d := det3 m
  [[(mget m 1 1 * mget m 2 2 - mget m 1 2 * mget m 2 1) / d,
    (mget m 0 2 * mget m 2 1 - mget m 0 1 * mget m 2 2) / d,
    (mget m 0 1 * mget m 1 2 - mget m 0 2 * mget m 1 1) / d],
   [(mget m 1 2 * mget m 2 0 - mget m 1 0 * mget m 2 2) / d,
    (mget m 0 0 * mget m 2 2 - mget m 0 2 * mget m 2 0) / d,
    (mget m 0 2 * mget m 1 0 - mget m 0 0 * mget m 1 2) / d],
   [(mget m 1 0 * mget m 2 1 - mget m 1 1 * mget m 2 0) / d,
    (mget m 0 1 * mget m 2 0 - mget m 0 0 * mget m 2 1) / d,
    (mget m 0 0 * mget m 1 1 - mget m 0 1 * mget m 1 0) / d]]

/-- `cv2.invertAffineTransform` on a 2x3 matrix: the 2x2 linear part is
inverted and the translation remapped (`[A | b] -> [A⁻¹ | -A⁻¹ b]`). -/
def invertAffine (m : Mat) : Mat :=
  let d := mget m 0 0 * mget m 1 1 - mget m 0 1 * mget m 1 0
  [[mget m 1 1 / d, -mget m 0 1 / d,
    (mget m 0 1 * mget m 1 2 - mget m 1 1 * mget m 0 2) / d],
   [-mget m 1 0 / d, mget m 0 0 / d,
    (mget m 1 0 * mget m 0 2 - mget m 0 0 * mget m 1 2) / d]]

/-- The 3x3 identity matrix (`np.eye(3, 3)`). -/
def eye3 : Mat := [[1, 0, 0], [0, 1, 0], [0, 0, 1]]

/-- An image: a numpy array with a shape (2-D: rows, cols; 3-D adds a
channel axis) and a pixel function over index lists. -/
structure Img where
  shape : List ℕ
  px : List ℕ → ℚ

/-- Source/destination heights and widths: `shape[0]` and `shape[1]`. -/
def Img.h (a : Img) : ℕ := a.shape.getD 0 0

/-- `shape[1]`. -/
def Img.w (a : Img) : ℕ := a.shape.getD 1 0

/-- Whether an index list addresses an unpadded cell of a padded array:
componentwise between the leading pad and leading pad + extent. -/
def padInterior (shape : List ℕ) (pads : List (ℕ × ℕ)) (idx : List ℕ) : Bool :=
  idx.length == shape.length &&
    (List.zip idx (List.zip shape pads)).all
      fun t => t.2.2.1 ≤ t.1 && t.1 < t.2.2.1 + t.2.1

/-- `np.pad(img, pads, mode='constant', constant_values=0)`. -/
def npPad (img : Img) (pads : List (ℕ × ℕ)) : Img where
  shape := List.zipWith (fun s p => p.1 + s + p.2) img.shape pads
  px := fun idx =>
    if padInterior img.shape pads idx then
      img.px (List.zipWith (fun x p => x - p.1) idx pads)
    else 0

/-- numpy array equality: same shape, same entries at every valid index. -/
def Img.extEq (a b : Img) : Prop :=
  a.shape = b.shape ∧
    ∀ idx : List ℕ, idx.length = a.shape.length →
      (List.zip idx a.shape).all (fun t => t.1 < t.2) →
      a.px idx = b.px idx

/-- An external resampler (`cv2.warpPerspective` / `cv2.warpAffine`):
source image, transform, requested output width and height, flags,
border mode, border value. Black box. -/
def Resampler : Type := Img → Mat → ℕ → ℕ → ℕ → ℕ → ℚ → Img

/-- `cv2.WARP_INVERSE_MAP`. -/
def WARP_INVERSE_MAP : ℕ := 16

/-- `cv2.INTER_LINEAR`. -/
def INTER_LINEAR : ℕ := 1

/-- `cv2.INTER_NEAREST`. -/
def INTER_NEAREST : ℕ := 0

/-- The flag test shared by both variants:
`flags in (WARP_INVERSE_MAP, INTER_LINEAR + WARP_INVERSE_MAP,
INTER_NEAREST + WARP_INVERSE_MAP)`. -/
def invFlagHit (flags : ℕ) : Prop :=
  flags = WARP_INVERSE_MAP ∨ flags = INTER_LINEAR + WARP_INVERSE_MAP ∨
    flags = INTER_NEAREST + WARP_INVERSE_MAP

instance (flags : ℕ) : Decidable (invFlagHit flags) := by
  unfold invFlagHit; infer_instance

/-- The shared `pad_widths` construction: top/left pads are the anchors,
bottom/right pads are `max(bounding-box max, destination extent) -
destination extent`; a channel axis, when present, gets `(0, 0)`. -/
def padWidthsOf (ax ay mx my : ℤ) (dst : Img) : List (ℕ × ℕ) :=
  let base := [(ay.toNat, (max my (dst.h : ℤ) - (dst.h : ℤ)).toNat),
               (ax.toNat, (max mx (dst.w : ℤ) - (dst.w : ℤ)).toNat)]
  if dst.shape.length = 3 then base ++ [(0, 0)] else base

/-- `min` of the four entries of a numpy length-4 vector. -/
def min4 (a b c d : ℚ) : ℚ := min a (min b (min c d))

/-- `max` of the four entries of a numpy length-4 vector. -/
def max4 (a b c d : ℚ) : ℚ := max a (max b (max c d))

namespace Persp

/-- `transf / transf[2, 2]` — normalize to a legal homography. -/
def normalize (t : Mat) : Mat := matDivScalar t (mget t 2 2)

/-- The transform actually used after the inverse-map flag handling:
normalized first, then inverted iff the flag test hits. -/
def effT (t : Mat) (flags : ℕ) : Mat :=
  if invFlagHit flags then inv3 (normalize t) else normalize t

/-- The flags passed on to the resampler: `flags -= WARP_INVERSE_MAP`
iff the flag test hits. -/
def effFlags (flags : ℕ) : ℕ :=
  if invFlagHit flags then flags - WARP_INVERSE_MAP else flags

/-- Homogeneous coordinate of `(x, y, 1)` under row 2 of `t`
(the divisor of the perspective projection). -/
def den (t : Mat) (x y : ℚ) : ℚ := mget t 2 0 * x + mget t 2 1 * y + mget t 2 2

/-- x-coordinate of the projected point: row 0 over the homogeneous
coordinate; the division is unguarded exactly as in the source. -/
def projX (t : Mat) (x y : ℚ) : ℚ :=
  (mget t 0 0 * x + mget t 0 1 * y + mget t 0 2) / den t x y

/-- y-coordinate of the projected point. -/
def projY (t : Mat) (x y : ℚ) : ℚ :=
  (mget t 1 0 * x + mget t 1 1 * y + mget t 1 2) / den t x y

/-- `min_x = np.floor(np.min(transf_lin_homg_pts[0])).astype(int)` over the
four corners `(0,0), (w,0), (w,h), (0,h)` of a `h × w` source. -/
def minX (t : Mat) (w h : ℕ) : ℤ :=
  ⌊min4 (projX t 0 0) (projX t w 0) (projX t w h) (projX t 0 h)⌋

/-- `min_y`. -/
def minY (t : Mat) (w h : ℕ) : ℤ :=
  ⌊min4 (projY t 0 0) (projY t w 0) (projY t w h) (projY t 0 h)⌋

/-- `max_x = np.ceil(np.max(...)).astype(int)`. -/
def maxX (t : Mat) (w h : ℕ) : ℤ :=
  ⌈max4 (projX t 0 0) (projX t w 0) (projX t w h) (projX t 0 h)⌉

/-- `max_y`. -/
def maxY (t : Mat) (w h : ℕ) : ℤ :=
  ⌈max4 (projY t 0 0) (projY t w 0) (projY t w h) (projY t 0 h)⌉

/-- `anchor_x = -min_x if min_x < 0 else 0`. -/
def anchorX (t : Mat) (w h : ℕ) : ℤ :=
  if minX t w h < 0 then -minX t w h else 0

/-- `anchor_y`. -/
def anchorY (t : Mat) (w h : ℕ) : ℤ :=
  if minY t w h < 0 then -minY t w h else 0

/-- `transl_transf`: `np.eye(3, 3)` with the anchors added into the last
column. -/
def translM (ax ay : ℤ) : Mat := [[1, 0, (ax : ℚ)], [0, 1, (ay : ℚ)], [0, 0, 1]]

/-- `shifted_transf = transl_transf.dot(transf); shifted_transf /=
shifted_transf[2, 2]`. -/
def shifted (t : Mat) (w h : ℕ) : Mat :=
  let s := matMul3 (translM (anchorX t w h) (anchorY t w h)) t
  matDivScalar s (mget s 2 2)

/-- The `pad_widths` tuple of the perspective variant. -/
def padWidths (t : Mat) (w h : ℕ) (dst : Img) : List (ℕ × ℕ) :=
  padWidthsOf (anchorX t w h) (anchorY t w h) (maxX t w h) (maxY t w h) dst

/-- `dst_padded = np.pad(dst, pad_widths, ...)`. -/
def dstPadded (t : Mat) (w h : ℕ) (dst : Img) : Img :=
  npPad dst (padWidths t w h dst)

/-- `warpPerspectivePadded(src, dst, transf, flags, borderMode,
borderValue)`, with the external `cv2.warpPerspective` passed in as
`resample`. Returns `(dst_padded, src_warped)` or the assertion message. -/
def warpPerspectivePadded (resample : Resampler) (src dst : Img) (transf : Mat)
    (flags borderMode : ℕ) (borderValue : ℚ) : Except String (Img × Img) :=
  if matShape transf = (3, 3) then
    let t := effT transf flags
    let st := shifted t src.w src.h
    let dp := dstPadded t src.w src.h dst
    Except.ok (dp, resample src st dp.w dp.h (effFlags flags) borderMode borderValue)
  else
    Except.error ("Perspective transformation shape should be (3, 3).\n"
      ++ "Use warpAffinePadded() for (2, 3) affine transformations.")

end Persp

namespace Aff

/-- The transform actually used after the inverse-map flag handling:
inverted via `cv2.invertAffineTransform` iff the flag test hits. -/
def effT (t : Mat) (flags : ℕ) : Mat :=
  if invFlagHit flags then invertAffine t else t

/-- The flags passed on to the resampler. -/
def effFlags (flags : ℕ) : ℕ :=
  if invFlagHit flags then flags - WARP_INVERSE_MAP else flags

/-- x-coordinate of an affinely mapped point:
`transf[:, :2].dot(pt) + transf[:, 2]`, row 0. -/
def projX (t : Mat) (x y : ℚ) : ℚ := mget t 0 0 * x + mget t 0 1 * y + mget t 0 2

/-- y-coordinate. -/
def projY (t : Mat) (x y : ℚ) : ℚ := mget t 1 0 * x + mget t 1 1 * y + mget t 1 2

/-- `min_x` over the four corners. -/
def minX (t : Mat) (w h : ℕ) : ℤ :=
  ⌊min4 (projX t 0 0) (projX t w 0) (projX t w h) (projX t 0 h)⌋

/-- `min_y`. -/
def minY (t : Mat) (w h : ℕ) : ℤ :=
  ⌊min4 (projY t 0 0) (projY t w 0) (projY t w h) (projY t 0 h)⌋

/-- `max_x`. -/
def maxX (t : Mat) (w h : ℕ) : ℤ :=
  ⌈max4 (projX t 0 0) (projX t w 0) (projX t w h) (projX t 0 h)⌉

/-- `max_y`. -/
def maxY (t : Mat) (w h : ℕ) : ℤ :=
  ⌈max4 (projY t 0 0) (projY t w 0) (projY t w h) (projY t 0 h)⌉

/-- `anchor_x`. -/
def anchorX (t : Mat) (w h : ℕ) : ℤ :=
  if minX t w h < 0 then -minX t w h else 0

/-- `anchor_y`. -/
def anchorY (t : Mat) (w h : ℕ) : ℤ :=
  if minY t w h < 0 then -minY t w h else 0

/-- `transf + [[0, 0, anchor_x], [0, 0, anchor_y]]` for arbitrary anchors:
the additive construction of the shifted transform. -/
def addShift (t : Mat) (ax ay : ℤ) : Mat :=
  matAdd t [[0, 0, (ax : ℚ)], [0, 0, (ay : ℚ)]]

/-- `shifted_transf`. -/
def shifted (t : Mat) (w h : ℕ) : Mat :=
  addShift t (anchorX t w h) (anchorY t w h)

/-- The `pad_widths` tuple, identical to the perspective variant. -/
def padWidths (t : Mat) (w h : ℕ) (dst : Img) : List (ℕ × ℕ) :=
  padWidthsOf (anchorX t w h) (anchorY t w h) (maxX t w h) (maxY t w h) dst

/-- `dst_padded`. -/
def dstPadded (t : Mat) (w h : ℕ) (dst : Img) : Img :=
  npPad dst (padWidths t w h dst)

/-- `warpAffinePadded(src, dst, transf, flags, borderMode, borderValue)`,
with `cv2.warpAffine` passed in as `resample`. -/
def warpAffinePadded (resample : Resampler) (src dst : Img) (transf : Mat)
    (flags borderMode : ℕ) (borderValue : ℚ) : Except String (Img × Img) :=
  if matShape transf = (2, 3) then
    let t := effT transf flags
    let st := shifted t src.w src.h
    let dp := dstPadded t src.w src.h dst
    Except.ok (dp, resample src st dp.w dp.h (effFlags flags) borderMode borderValue)
  else
    Except.error ("Affine transformation shape should be (2, 3).\n"
      ++ "Use warpPerspectivePadded() for (3, 3) homography transformations.")

end Aff

/-- The four source corners `(0,0), (w,0), (w,h), (0,h)` of a `h × w`
source image, in the clockwise order used by the code. -/
def corners (w h : ℕ) : List (ℚ × ℚ) :=
  [(0, 0), ((w : ℚ), 0), ((w : ℚ), (h : ℚ)), (0, (h : ℚ))]

namespace Persp

end Persp

/-- A resampler that returns a blank image of exactly the requested
output dimensions, for concrete instantiations. -/
def constRes : Resampler := fun _ _ W H _ _ _ => ⟨[H, W], fun _ => 0⟩

/-- A resampler that returns the source unchanged, for concrete
instantiations of identity-transform scenarios. -/
def idRes : Resampler := fun s _ _ _ _ _ _ => s

/-- The 2x3 identity affine matrix. -/
def idAff : Mat := [[1, 0, 0], [0, 1, 0]]

/-- A concrete 2x2 grayscale image. -/
def img2 : Img := ⟨[2, 2], fun _ => 1⟩

/-- A concrete 2x2 3-channel image. -/
def img3 : Img := ⟨[2, 2, 3], fun _ => 1⟩

/-- A concrete 3x3 pure-translation homography (translate by (5, 0)). -/
def trEx : Mat := [[1, 0, 5], [0, 1, 0], [0, 0, 1]]

/-- A concrete 2x3 pure-translation affine matrix (translate by (5, 0)). -/
def trAffEx : Mat := [[1, 0, 5], [0, 1, 0]]

section helperLemmas

theorem mget_matAdd23 (a b c d e f ax ay : ℚ) (i j : ℕ) :
    mget (matAdd [[a, b, c], [d, e, f]] [[0, 0, ax], [0, 0, ay]]) i j =
      mget [[a + 0, b + 0, c + ax], [d + 0, e + 0, f + ay]] i j := by
  rfl

end helperLemmas

/-- C3: in both variants `anchor_x = max(0, -min_x)` and
`anchor_y = max(0, -min_y)` where `(min_x, min_y)` is the floor of the
componentwise minima of the projected corners; both anchors are
non-negative, and each is zero when the corresponding bounding-box
minimum is non-negative. -/
theorem claim_C3 (tP tA : Mat) (w h : ℕ) :
    (Persp.anchorX tP w h = max 0 (-Persp.minX tP w h) ∧
     Persp.anchorY tP w h = max 0 (-Persp.minY tP w h) ∧
     0 ≤ Persp.anchorX tP w h ∧ 0 ≤ Persp.anchorY tP w h ∧
     (0 ≤ Persp.minX tP w h → Persp.anchorX tP w h = 0) ∧
     (0 ≤ Persp.minY tP w h → Persp.anchorY tP w h = 0)) ∧
    (Aff.anchorX tA w h = max 0 (-Aff.minX tA w h) ∧
     Aff.anchorY tA w h = max 0 (-Aff.minY tA w h) ∧
     0 ≤ Aff.anchorX tA w h ∧ 0 ≤ Aff.anchorY tA w h ∧
     (0 ≤ Aff.minX tA w h → Aff.anchorX tA w h = 0) ∧
     (0 ≤ Aff.minY tA w h → Aff.anchorY tA w h = 0)) := by
  constructor
  · refine ⟨?_, ?_, ?_, ?_, fun hm => ?_, fun hm => ?_⟩ <;>
      first
        | (unfold Persp.anchorX; split <;> omega)
        | (unfold Persp.anchorY; split <;> omega)
  · refine ⟨?_, ?_, ?_, ?_, fun hm => ?_, fun hm => ?_⟩ <;>
      first
        | (unfold Aff.anchorX; split <;> omega)
        | (unfold Aff.anchorY; split <;> omega)

/-- C3 witness: the identity transform on a 1x1 source has bounding-box
minima 0, so both anchors are 0 and all conjuncts instantiate. -/
theorem claim_C3_witness :
    Persp.anchorX eye3 1 1 = max 0 (-Persp.minX eye3 1 1) ∧
    Persp.anchorX eye3 1 1 = 0 ∧ Aff.anchorY idAff 1 1 = 0 := by
  obtain ⟨⟨h1, _, _, _, h5, _⟩, ⟨_, _, _, _, _, h12⟩⟩ := claim_C3 eye3 idAff 1 1
  refine ⟨h1, h5 ?_, h12 ?_⟩
  · show (0 : ℤ) ≤ ⌊min4 (Persp.projX eye3 0 0) (Persp.projX eye3 1 0)
      (Persp.projX eye3 1 1) (Persp.projX eye3 0 1)⌋
    norm_num [Persp.projX, Persp.den, mget, eye3, min4]
  · show (0 : ℤ) ≤ ⌊min4 (Aff.projY idAff 0 0) (Aff.projY idAff 1 0)
      (Aff.projY idAff 1 1) (Aff.projY idAff 0 1)⌋
    norm_num [Aff.projY, mget, idAff, min4]

/-- C9: the affine shifted transform adds the anchors into the translation
column, leaving the 2x2 linear part unchanged, and projecting any point
through the additively-shifted matrix equals projecting it through the
original matrix and then translating by the anchors — the affine analogue of
the perspective variant's left-multiplication by a translation matrix. -/
theorem claim_C9 (a b c d e f : ℚ) (ax ay : ℤ) (x y : ℚ) :
    Aff.projX (Aff.addShift [[a, b, c], [d, e, f]] ax ay) x y =
      Aff.projX [[a, b, c], [d, e, f]] x y + ax ∧
    Aff.projY (Aff.addShift [[a, b, c], [d, e, f]] ax ay) x y =
      Aff.projY [[a, b, c], [d, e, f]] x y + ay ∧
    mget (Aff.addShift [[a, b, c], [d, e, f]] ax ay) 0 0 = a ∧
    mget (Aff.addShift [[a, b, c], [d, e, f]] ax ay) 0 1 = b ∧
    mget (Aff.addShift [[a, b, c], [d, e, f]] ax ay) 1 0 = d ∧
    mget (Aff.addShift [[a, b, c], [d, e, f]] ax ay) 1 1 = e ∧
    mget (Aff.addShift [[a, b, c], [d, e, f]] ax ay) 0 2 = c + ax ∧
    mget (Aff.addShift [[a, b, c], [d, e, f]] ax ay) 1 2 = f + ay := by
  refine ⟨?_, ?_, ?_, ?_, ?_, ?_, ?_, ?_⟩ <;>
    simp [Aff.projX, Aff.projY, Aff.addShift, mget_matAdd23, mget,
      matAdd] <;> ring

/-- C5 counterexample: `flags = 18` (`INTER_CUBIC + WARP_INVERSE_MAP`) has
the inverse-map bit set, yet neither variant inverts the transform or clears
the bit, because the code tests membership in the tuple
`(WARP_INVERSE_MAP, INTER_LINEAR + WARP_INVERSE_MAP, INTER_NEAREST +
WARP_INVERSE_MAP)` = {16, 17}, not the bit itself. -/
theorem claim_C5_counterexample :
    (18 : ℕ) &&& WARP_INVERSE_MAP ≠ 0 ∧
    Persp.effFlags 18 = 18 ∧ Persp.effFlags 18 ≠ 18 - WARP_INVERSE_MAP ∧
    Aff.effFlags 18 = 18 ∧ Aff.effFlags 18 ≠ 18 - WARP_INVERSE_MAP ∧
    Persp.effT trEx 18 = Persp.normalize trEx ∧
    mget (Persp.normalize trEx) 0 2 = 5 ∧
    mget (inv3 (Persp.normalize trEx)) 0 2 = -5 ∧
    Aff.effT trAffEx 18 = trAffEx ∧
    mget trAffEx 0 2 = 5 ∧ mget (invertAffine trAffEx) 0 2 = -5 := by
  have hnot : ¬ invFlagHit 18 := by decide
  refine ⟨by decide, ?_, by decide, ?_, by decide, ?_, ?_, ?_, ?_, ?_, ?_⟩ <;>
    norm_num [Persp.effFlags, Aff.effFlags, Persp.effT, Aff.effT, hnot,
      Persp.normalize, inv3, invertAffine, det3, matDivScalar,
      mget, trEx, trAffEx]

/-- C5 (amended): the transform is replaced by its inverse (generic 3x3
inverse for perspective, affine inverse for affine) and the inverse-map bit
cleared exactly when the flags value is `WARP_INVERSE_MAP`,
`INTER_LINEAR + WARP_INVERSE_MAP` or `INTER_NEAREST + WARP_INVERSE_MAP`
(i.e. 16 or 17) — not for every flags value with the bit set. -/
theorem claim_C5 (t : Mat) (flags : ℕ) (hf : invFlagHit flags) :
    flags &&& WARP_INVERSE_MAP ≠ 0 ∧
    Persp.effT t flags = inv3 (Persp.normalize t) ∧
    Persp.effFlags flags = flags - WARP_INVERSE_MAP ∧
    Persp.effFlags flags &&& WARP_INVERSE_MAP = 0 ∧
    Aff.effT t flags = invertAffine t ∧
    Aff.effFlags flags = flags - WARP_INVERSE_MAP ∧
    Aff.effFlags flags &&& WARP_INVERSE_MAP = 0 := by
  have hfl : flags = 16 ∨ flags = 17 := by
    rcases hf with h | h | h <;> simp [WARP_INVERSE_MAP, INTER_LINEAR,
      INTER_NEAREST] at h <;> omega
  rcases hfl with rfl | rfl <;>
    refine ⟨by decide, ?_, by decide, by decide, ?_, by decide, by decide⟩ <;>
    simp [Persp.effT, Aff.effT, invFlagHit, WARP_INVERSE_MAP,
      INTER_LINEAR, INTER_NEAREST]

/-- C5 witness: at `flags = WARP_INVERSE_MAP` the amended claim
instantiates. -/
theorem claim_C5_witness :
    (16 : ℕ) &&& WARP_INVERSE_MAP ≠ 0 ∧
    Persp.effT trEx 16 = inv3 (Persp.normalize trEx) ∧
    Persp.effFlags 16 = 16 - WARP_INVERSE_MAP ∧
    Persp.effFlags 16 &&& WARP_INVERSE_MAP = 0 ∧
    Aff.effT trAffEx 16 = invertAffine trAffEx ∧
    Aff.effFlags 16 = 16 - WARP_INVERSE_MAP ∧
    Aff.effFlags 16 &&& WARP_INVERSE_MAP = 0 := by
  have h1 := claim_C5 trEx 16 (Or.inl rfl)
  have h2 := claim_C5 trAffEx 16 (Or.inl rfl)
  exact ⟨h1.1, h1.2.1, h1.2.2.1, h1.2.2.2.1, h2.2.2.2.2.1,
    h2.2.2.2.2.2.1, h2.2.2.2.2.2.2⟩

/-- C6: for a transform of the wrong shape, each variant fails with a
shape-mismatch error whose message names the expected shape and suggests
the counterpart function. The result is the same error for every source,
destination, resampler, flags and border arguments, i.e. it is produced
before any image data or other input is consulted. -/
theorem claim_C6 (rP rA : Resampler) (srcP dstP srcA dstA : Img)
    (tP tA : Mat) (flags bm : ℕ) (bv : ℚ)
    (hP : matShape tP ≠ (3, 3)) (hA : matShape tA ≠ (2, 3)) :
    Persp.warpPerspectivePadded rP srcP dstP tP flags bm bv =
      Except.error ("Perspective transformation shape should be (3, 3).\n"
        ++ "Use warpAffinePadded() for (2, 3) affine transformations.") ∧
    Aff.warpAffinePadded rA srcA dstA tA flags bm bv =
      Except.error ("Affine transformation shape should be (2, 3).\n"
        ++ "Use warpPerspectivePadded() for (3, 3) homography transformations.") := by
  constructor
  · simp [Persp.warpPerspectivePadded, if_neg hP]
  · simp [Aff.warpAffinePadded, if_neg hA]

/-- C6 witness: calling the perspective variant with a 2x3 matrix and the
affine variant with a 3x3 matrix produces the respective errors. -/
theorem claim_C6_witness :
    Persp.warpPerspectivePadded constRes img2 img2 trAffEx 1 0 0 =
      Except.error ("Perspective transformation shape should be (3, 3).\n"
        ++ "Use warpAffinePadded() for (2, 3) affine transformations.") ∧
    Aff.warpAffinePadded constRes img2 img2 trEx 1 0 0 =
      Except.error ("Affine transformation shape should be (2, 3).\n"
        ++ "Use warpPerspectivePadded() for (3, 3) homography transformations.") :=
  claim_C6 constRes constRes img2 img2 img2 img2 trAffEx trEx 1 0 0
    (by decide) (by decide)

section paddedShape

theorem padShape2 (ax ay mx my : ℤ) (dst : Img) (a b : ℕ)
    (hs : dst.shape = [a, b]) :
    (npPad dst (padWidthsOf ax ay mx my dst)).shape =
      [ay.toNat + a + (max my (a : ℤ) - (a : ℤ)).toNat,
       ax.toNat + b + (max mx (b : ℤ) - (b : ℤ)).toNat] := by
  simp [npPad, padWidthsOf, hs, Img.h, Img.w]

theorem padShape3 (ax ay mx my : ℤ) (dst : Img) (a b c : ℕ)
    (hs : dst.shape = [a, b, c]) :
    (npPad dst (padWidthsOf ax ay mx my dst)).shape =
      [ay.toNat + a + (max my (a : ℤ) - (a : ℤ)).toNat,
       ax.toNat + b + (max mx (b : ℤ) - (b : ℤ)).toNat, c] := by
  simp [npPad, padWidthsOf, hs, Img.h, Img.w]

theorem padded_take2 (ax ay mx my : ℤ) (dst : Img)
    (hdst : dst.shape.length = 2 ∨ dst.shape.length = 3) :
    (npPad dst (padWidthsOf ax ay mx my dst)).shape.take 2 =
      [(npPad dst (padWidthsOf ax ay mx my dst)).h,
       (npPad dst (padWidthsOf ax ay mx my dst)).w] := by
  rcases hdst with h2 | h3
  · obtain ⟨a, b, hs⟩ := List.length_eq_two.mp h2
    rw [padShape2 ax ay mx my dst a b hs]
    simp [Img.h, Img.w, padShape2 ax ay mx my dst a b hs]
  · obtain ⟨a, b, c, hs⟩ := List.length_eq_three.mp h3
    rw [padShape3 ax ay mx my dst a b c hs]
    simp [Img.h, Img.w, padShape3 ax ay mx my dst a b c hs]

theorem padded_h (ax ay mx my : ℤ) (hay : 0 ≤ ay) (dst : Img)
    (hdst : dst.shape.length = 2 ∨ dst.shape.length = 3) :
    ((npPad dst (padWidthsOf ax ay mx my dst)).h : ℤ) =
      ay + (dst.h : ℤ) + (max my (dst.h : ℤ) - (dst.h : ℤ)) := by
  have hb : (0 : ℤ) ≤ max my (dst.h : ℤ) - (dst.h : ℤ) :=
    sub_nonneg.mpr (le_max_right _ _)
  rcases hdst with h2 | h3
  · obtain ⟨a, b, hs⟩ := List.length_eq_two.mp h2
    have hh : dst.h = a := by simp [Img.h, hs]
    have hH : (npPad dst (padWidthsOf ax ay mx my dst)).h =
        ay.toNat + a + (max my (a : ℤ) - (a : ℤ)).toNat := by
      simp [Img.h, padShape2 ax ay mx my dst a b hs]
    rw [hH, hh]
    rw [hh] at hb
    push_cast [Int.toNat_of_nonneg hay, Int.toNat_of_nonneg hb]
    ring
  · obtain ⟨a, b, c, hs⟩ := List.length_eq_three.mp h3
    have hh : dst.h = a := by simp [Img.h, hs]
    have hH : (npPad dst (padWidthsOf ax ay mx my dst)).h =
        ay.toNat + a + (max my (a : ℤ) - (a : ℤ)).toNat := by
      simp [Img.h, padShape3 ax ay mx my dst a b c hs]
    rw [hH, hh]
    rw [hh] at hb
    push_cast [Int.toNat_of_nonneg hay, Int.toNat_of_nonneg hb]
    ring

theorem padded_w (ax ay mx my : ℤ) (hax : 0 ≤ ax) (dst : Img)
    (hdst : dst.shape.length = 2 ∨ dst.shape.length = 3) :
    ((npPad dst (padWidthsOf ax ay mx my dst)).w : ℤ) =
      ax + (dst.w : ℤ) + (max mx (dst.w : ℤ) - (dst.w : ℤ)) := by
  have hb : (0 : ℤ) ≤ max mx (dst.w : ℤ) - (dst.w : ℤ) :=
    sub_nonneg.mpr (le_max_right _ _)
  rcases hdst with h2 | h3
  · obtain ⟨a, b, hs⟩ := List.length_eq_two.mp h2
    have hh : dst.w = b := by simp [Img.w, hs]
    have hW : (npPad dst (padWidthsOf ax ay mx my dst)).w =
        ax.toNat + b + (max mx (b : ℤ) - (b : ℤ)).toNat := by
      simp [Img.w, padShape2 ax ay mx my dst a b hs]
    rw [hW, hh]
    rw [hh] at hb
    push_cast [Int.toNat_of_nonneg hax, Int.toNat_of_nonneg hb]
    ring
  · obtain ⟨a, b, c, hs⟩ := List.length_eq_three.mp h3
    have hh : dst.w = b := by simp [Img.w, hs]
    have hW : (npPad dst (padWidthsOf ax ay mx my dst)).w =
        ax.toNat + b + (max mx (b : ℤ) - (b : ℤ)).toNat := by
      simp [Img.w, padShape3 ax ay mx my dst a b c hs]
    rw [hW, hh]
    rw [hh] at hb
    push_cast [Int.toNat_of_nonneg hax, Int.toNat_of_nonneg hb]
    ring

end paddedShape

theorem Persp.anchorX_nonnegP (t : Mat) (w h : ℕ) : 0 ≤ Persp.anchorX t w h := by
  unfold Persp.anchorX; split <;> omega

theorem Persp.anchorY_nonnegP (t : Mat) (w h : ℕ) : 0 ≤ Persp.anchorY t w h := by
  unfold Persp.anchorY; split <;> omega

theorem Aff.anchorX_nonnegA (t : Mat) (w h : ℕ) : 0 ≤ Aff.anchorX t w h := by
  unfold Aff.anchorX; split <;> omega

theorem Aff.anchorY_nonnegA (t : Mat) (w h : ℕ) : 0 ≤ Aff.anchorY t w h := by
  unfold Aff.anchorY; split <;> omega

/-- C4: the destination is padded on top by `anchor_y`, left by `anchor_x`,
bottom by `max(max_y, dst_h) - dst_h` and right by `max(max_x, dst_w) -
dst_w`, so the padded destination's height and width are at least the
original destination's, in both variants. -/
theorem claim_C4 (tP tA : Mat) (w h : ℕ) (dst : Img)
    (hdst : dst.shape.length = 2 ∨ dst.shape.length = 3) :
    (((Persp.dstPadded tP w h dst).h : ℤ) =
       Persp.anchorY tP w h + (dst.h : ℤ) +
         (max (Persp.maxY tP w h) (dst.h : ℤ) - (dst.h : ℤ)) ∧
     ((Persp.dstPadded tP w h dst).w : ℤ) =
       Persp.anchorX tP w h + (dst.w : ℤ) +
         (max (Persp.maxX tP w h) (dst.w : ℤ) - (dst.w : ℤ)) ∧
     dst.h ≤ (Persp.dstPadded tP w h dst).h ∧
     dst.w ≤ (Persp.dstPadded tP w h dst).w) ∧
    (((Aff.dstPadded tA w h dst).h : ℤ) =
       Aff.anchorY tA w h + (dst.h : ℤ) +
         (max (Aff.maxY tA w h) (dst.h : ℤ) - (dst.h : ℤ)) ∧
     ((Aff.dstPadded tA w h dst).w : ℤ) =
       Aff.anchorX tA w h + (dst.w : ℤ) +
         (max (Aff.maxX tA w h) (dst.w : ℤ) - (dst.w : ℤ)) ∧
     dst.h ≤ (Aff.dstPadded tA w h dst).h ∧
     dst.w ≤ (Aff.dstPadded tA w h dst).w) := by
  constructor
  · have hH := padded_h (Persp.anchorX tP w h) (Persp.anchorY tP w h)
      (Persp.maxX tP w h) (Persp.maxY tP w h) (Persp.anchorY_nonnegP tP w h) dst hdst
    have hW := padded_w (Persp.anchorX tP w h) (Persp.anchorY tP w h)
      (Persp.maxX tP w h) (Persp.maxY tP w h) (Persp.anchorX_nonnegP tP w h) dst hdst
    have hdp : Persp.dstPadded tP w h dst =
        npPad dst (padWidthsOf (Persp.anchorX tP w h) (Persp.anchorY tP w h)
          (Persp.maxX tP w h) (Persp.maxY tP w h) dst) := rfl
    rw [hdp]
    refine ⟨hH, hW, ?_, ?_⟩
    · have h1 := le_max_right (Persp.maxY tP w h) (dst.h : ℤ)
      have h2 := Persp.anchorY_nonnegP tP w h
      omega
    · have h1 := le_max_right (Persp.maxX tP w h) (dst.w : ℤ)
      have h2 := Persp.anchorX_nonnegP tP w h
      omega
  · have hH := padded_h (Aff.anchorX tA w h) (Aff.anchorY tA w h)
      (Aff.maxX tA w h) (Aff.maxY tA w h) (Aff.anchorY_nonnegA tA w h) dst hdst
    have hW := padded_w (Aff.anchorX tA w h) (Aff.anchorY tA w h)
      (Aff.maxX tA w h) (Aff.maxY tA w h) (Aff.anchorX_nonnegA tA w h) dst hdst
    have hdp : Aff.dstPadded tA w h dst =
        npPad dst (padWidthsOf (Aff.anchorX tA w h) (Aff.anchorY tA w h)
          (Aff.maxX tA w h) (Aff.maxY tA w h) dst) := rfl
    rw [hdp]
    refine ⟨hH, hW, ?_, ?_⟩
    · have h1 := le_max_right (Aff.maxY tA w h) (dst.h : ℤ)
      have h2 := Aff.anchorY_nonnegA tA w h
      omega
    · have h1 := le_max_right (Aff.maxX tA w h) (dst.w : ℤ)
      have h2 := Aff.anchorX_nonnegA tA w h
      omega

/-- C4 witness: instantiated at the translation homography and affine
matrix on a 2x2 destination. -/
theorem claim_C4_witness :
    img2.h ≤ (Persp.dstPadded trEx 2 2 img2).h ∧
    img2.w ≤ (Aff.dstPadded trAffEx 2 2 img2).w ∧
    ((Persp.dstPadded trEx 2 2 img2).w : ℤ) =
      Persp.anchorX trEx 2 2 + (img2.w : ℤ) +
        (max (Persp.maxX trEx 2 2) (img2.w : ℤ) - (img2.w : ℤ)) :=
  ⟨(claim_C4 trEx trAffEx 2 2 img2 (Or.inl rfl)).1.2.2.1,
   (claim_C4 trEx trAffEx 2 2 img2 (Or.inl rfl)).2.2.2.2,
   (claim_C4 trEx trAffEx 2 2 img2 (Or.inl rfl)).1.2.1⟩

/-- C1: whenever a call returns, the padded destination and the warped
source have identical height and width (`shape[:2]`), assuming the external
resampler returns an image whose first two dimensions are exactly the
requested output height and width. -/
theorem claim_C1 (r : Resampler) (src dst : Img) (tP tA : Mat)
    (flags bm : ℕ) (bv : ℚ)
    (hres : ∀ s m W H f b v, ((r s m W H f b v).shape.take 2 = [H, W]))
    (hdst : dst.shape.length = 2 ∨ dst.shape.length = 3) :
    (∀ p, Persp.warpPerspectivePadded r src dst tP flags bm bv = Except.ok p →
       p.1.shape.take 2 = p.2.shape.take 2) ∧
    (∀ p, Aff.warpAffinePadded r src dst tA flags bm bv = Except.ok p →
       p.1.shape.take 2 = p.2.shape.take 2) := by
  constructor
  · intro p hp
    simp only [Persp.warpPerspectivePadded] at hp
    split at hp
    · simp only [Except.ok.injEq] at hp
      subst hp
      rw [hres]
      exact padded_take2 _ _ _ _ dst hdst
    · simp at hp
  · intro p hp
    simp only [Aff.warpAffinePadded] at hp
    split at hp
    · simp only [Except.ok.injEq] at hp
      subst hp
      rw [hres]
      exact padded_take2 _ _ _ _ dst hdst
    · simp at hp

/-- C1 witness: a blank-canvas resampler of the requested dimensions on a
2x2 destination. -/
theorem claim_C1_witness :
    (∀ p, Persp.warpPerspectivePadded constRes img2 img2 trEx 1 0 0 = Except.ok p →
       p.1.shape.take 2 = p.2.shape.take 2) ∧
    (∀ p, Aff.warpAffinePadded constRes img2 img2 trAffEx 1 0 0 = Except.ok p →
       p.1.shape.take 2 = p.2.shape.take 2) :=
  claim_C1 constRes img2 img2 trEx trAffEx 1 0 0
    (fun _ _ _ _ _ _ _ => rfl) (Or.inl rfl)

/-- C8: for a 3-dimensional destination the padded destination keeps
exactly the destination's channel-axis length, in both variants. -/
theorem claim_C8 (r : Resampler) (src dst : Img) (tP tA : Mat)
    (flags bm : ℕ) (bv : ℚ) (hdst : dst.shape.length = 3) :
    (∀ p, Persp.warpPerspectivePadded r src dst tP flags bm bv = Except.ok p →
       p.1.shape.length = 3 ∧ p.1.shape.getD 2 0 = dst.shape.getD 2 0) ∧
    (∀ p, Aff.warpAffinePadded r src dst tA flags bm bv = Except.ok p →
       p.1.shape.length = 3 ∧ p.1.shape.getD 2 0 = dst.shape.getD 2 0) := by
  obtain ⟨a, b, c, hs⟩ := List.length_eq_three.mp hdst
  constructor
  · intro p hp
    simp only [Persp.warpPerspectivePadded] at hp
    split at hp
    · simp only [Except.ok.injEq] at hp
      subst hp
      have hsh := padShape3 (Persp.anchorX (Persp.effT tP flags) src.w src.h)
        (Persp.anchorY (Persp.effT tP flags) src.w src.h)
        (Persp.maxX (Persp.effT tP flags) src.w src.h)
        (Persp.maxY (Persp.effT tP flags) src.w src.h) dst a b c hs
      constructor
      · simp [Persp.dstPadded, Persp.padWidths, hsh]
      · simp [Persp.dstPadded, Persp.padWidths, hsh, hs]
    · simp at hp
  · intro p hp
    simp only [Aff.warpAffinePadded] at hp
    split at hp
    · simp only [Except.ok.injEq] at hp
      subst hp
      have hsh := padShape3 (Aff.anchorX (Aff.effT tA flags) src.w src.h)
        (Aff.anchorY (Aff.effT tA flags) src.w src.h)
        (Aff.maxX (Aff.effT tA flags) src.w src.h)
        (Aff.maxY (Aff.effT tA flags) src.w src.h) dst a b c hs
      constructor
      · simp [Aff.dstPadded, Aff.padWidths, hsh]
      · simp [Aff.dstPadded, Aff.padWidths, hsh, hs]
    · simp at hp

/-- C8 witness: a 2x2 3-channel destination keeps its 3 channels. -/
theorem claim_C8_witness :
    (∀ p, Persp.warpPerspectivePadded constRes img2 img3 trEx 1 0 0 = Except.ok p →
       p.1.shape.length = 3 ∧ p.1.shape.getD 2 0 = img3.shape.getD 2 0) ∧
    (∀ p, Aff.warpAffinePadded constRes img2 img3 trAffEx 1 0 0 = Except.ok p →
       p.1.shape.length = 3 ∧ p.1.shape.getD 2 0 = img3.shape.getD 2 0) :=
  claim_C8 constRes img2 img3 trEx trAffEx 1 0 0 rfl

section shiftedProjection

theorem homogShiftDiv (T00 T01 T02 T20 T21 T22 a x y : ℚ)
    (h22 : T22 ≠ 0) (hd : T20 * x + T21 * y + T22 ≠ 0) :
    ((T00 + a * T20) / T22 * x + (T01 + a * T21) / T22 * y +
        (T02 + a * T22) / T22) /
      (T20 / T22 * x + T21 / T22 * y + T22 / T22) =
    (T00 * x + T01 * y + T02) / (T20 * x + T21 * y + T22) + a := by
  have hN : (T00 + a * T20) / T22 * x + (T01 + a * T21) / T22 * y +
      (T02 + a * T22) / T22
      = ((T00 * x + T01 * y + T02) + a * (T20 * x + T21 * y + T22)) / T22 := by
    ring
  have hG : T20 / T22 * x + T21 / T22 * y + T22 / T22
      = (T20 * x + T21 * y + T22) / T22 := by ring
  rw [hN, hG]
  field_simp

theorem matMul_transl (t : Mat) (ax ay : ℤ) :
    matMul3 (Persp.translM ax ay) t =
      [[mget t 0 0 + (ax : ℚ) * mget t 2 0, mget t 0 1 + (ax : ℚ) * mget t 2 1,
        mget t 0 2 + (ax : ℚ) * mget t 2 2],
       [mget t 1 0 + (ay : ℚ) * mget t 2 0, mget t 1 1 + (ay : ℚ) * mget t 2 1,
        mget t 1 2 + (ay : ℚ) * mget t 2 2],
       [mget t 2 0, mget t 2 1, mget t 2 2]] := by
  simp only [matMul3, mul3entry, Persp.translM]
  norm_num [mget]

theorem Persp.shifted_eq (t : Mat) (w h : ℕ) :
    Persp.shifted t w h = matDivScalar
      [[mget t 0 0 + ((Persp.anchorX t w h : ℤ) : ℚ) * mget t 2 0,
        mget t 0 1 + ((Persp.anchorX t w h : ℤ) : ℚ) * mget t 2 1,
        mget t 0 2 + ((Persp.anchorX t w h : ℤ) : ℚ) * mget t 2 2],
       [mget t 1 0 + ((Persp.anchorY t w h : ℤ) : ℚ) * mget t 2 0,
        mget t 1 1 + ((Persp.anchorY t w h : ℤ) : ℚ) * mget t 2 1,
        mget t 1 2 + ((Persp.anchorY t w h : ℤ) : ℚ) * mget t 2 2],
       [mget t 2 0, mget t 2 1, mget t 2 2]] (mget t 2 2) := by
  show matDivScalar (matMul3 (Persp.translM (Persp.anchorX t w h) (Persp.anchorY t w h)) t)
      (mget (matMul3 (Persp.translM (Persp.anchorX t w h) (Persp.anchorY t w h)) t) 2 2) = _
  rw [matMul_transl]
  rfl

theorem projX_lit (A B C D E F G H I s x y : ℚ) :
    Persp.projX (matDivScalar [[A, B, C], [D, E, F], [G, H, I]] s) x y =
      (A / s * x + B / s * y + C / s) / (G / s * x + H / s * y + I / s) := by
  simp [Persp.projX, Persp.den, matDivScalar, mget]

theorem projY_lit (A B C D E F G H I s x y : ℚ) :
    Persp.projY (matDivScalar [[A, B, C], [D, E, F], [G, H, I]] s) x y =
      (D / s * x + E / s * y + F / s) / (G / s * x + H / s * y + I / s) := by
  simp [Persp.projY, Persp.den, matDivScalar, mget]

theorem Persp.shifted_projX (t : Mat) (w h : ℕ) (x y : ℚ)
    (h22 : mget t 2 2 ≠ 0) (hd : Persp.den t x y ≠ 0) :
    Persp.projX (Persp.shifted t w h) x y =
      Persp.projX t x y + ((Persp.anchorX t w h : ℤ) : ℚ) := by
  have hd' : mget t 2 0 * x + mget t 2 1 * y + mget t 2 2 ≠ 0 := hd
  rw [Persp.shifted_eq, projX_lit, Persp.projX, Persp.den]
  exact homogShiftDiv _ _ _ _ _ _ _ x y h22 hd'

theorem Persp.shifted_projY (t : Mat) (w h : ℕ) (x y : ℚ)
    (h22 : mget t 2 2 ≠ 0) (hd : Persp.den t x y ≠ 0) :
    Persp.projY (Persp.shifted t w h) x y =
      Persp.projY t x y + ((Persp.anchorY t w h : ℤ) : ℚ) := by
  have hd' : mget t 2 0 * x + mget t 2 1 * y + mget t 2 2 ≠ 0 := hd
  rw [Persp.shifted_eq, projY_lit, Persp.projY, Persp.den]
  exact homogShiftDiv _ _ _ _ _ _ _ x y h22 hd'

end shiftedProjection

section cornerBounds

theorem min4_le_all (a b c d : ℚ) :
    min4 a b c d ≤ a ∧ min4 a b c d ≤ b ∧ min4 a b c d ≤ c ∧ min4 a b c d ≤ d := by
  refine ⟨min_le_left _ _, ?_, ?_, ?_⟩
  · exact (min_le_right a _).trans (min_le_left b _)
  · exact (min_le_right a _).trans ((min_le_right b _).trans (min_le_left c _))
  · exact (min_le_right a _).trans ((min_le_right b _).trans (min_le_right c _))

theorem le_max4_all (a b c d : ℚ) :
    a ≤ max4 a b c d ∧ b ≤ max4 a b c d ∧ c ≤ max4 a b c d ∧ d ≤ max4 a b c d := by
  refine ⟨le_max_left _ _, ?_, ?_, ?_⟩
  · exact (le_max_left b _).trans (le_max_right a _)
  · exact ((le_max_left c _).trans (le_max_right b _)).trans (le_max_right a _)
  · exact ((le_max_right c _).trans (le_max_right b _)).trans (le_max_right a _)

theorem Persp.corner_minmaxP (t : Mat) (w h : ℕ) (c : ℚ × ℚ)
    (hc : c ∈ corners w h) :
    ((Persp.minX t w h : ℤ) : ℚ) ≤ Persp.projX t c.1 c.2 ∧
    Persp.projX t c.1 c.2 ≤ ((Persp.maxX t w h : ℤ) : ℚ) ∧
    ((Persp.minY t w h : ℤ) : ℚ) ≤ Persp.projY t c.1 c.2 ∧
    Persp.projY t c.1 c.2 ≤ ((Persp.maxY t w h : ℤ) : ℚ) := by
  have hfx := Int.floor_le (min4 (Persp.projX t 0 0) (Persp.projX t w 0)
    (Persp.projX t w h) (Persp.projX t 0 h))
  have hcx := Int.le_ceil (max4 (Persp.projX t 0 0) (Persp.projX t w 0)
    (Persp.projX t w h) (Persp.projX t 0 h))
  have hfy := Int.floor_le (min4 (Persp.projY t 0 0) (Persp.projY t w 0)
    (Persp.projY t w h) (Persp.projY t 0 h))
  have hcy := Int.le_ceil (max4 (Persp.projY t 0 0) (Persp.projY t w 0)
    (Persp.projY t w h) (Persp.projY t 0 h))
  have hmx := min4_le_all (Persp.projX t 0 0) (Persp.projX t w 0)
    (Persp.projX t w h) (Persp.projX t 0 h)
  have hMx := le_max4_all (Persp.projX t 0 0) (Persp.projX t w 0)
    (Persp.projX t w h) (Persp.projX t 0 h)
  have hmy := min4_le_all (Persp.projY t 0 0) (Persp.projY t w 0)
    (Persp.projY t w h) (Persp.projY t 0 h)
  have hMy := le_max4_all (Persp.projY t 0 0) (Persp.projY t w 0)
    (Persp.projY t w h) (Persp.projY t 0 h)
  simp only [corners, List.mem_cons, List.not_mem_nil, or_false] at hc
  unfold Persp.minX Persp.maxX Persp.minY Persp.maxY
  rcases hc with rfl | rfl | rfl | rfl
  · exact ⟨hfx.trans hmx.1, hMx.1.trans hcx, hfy.trans hmy.1, hMy.1.trans hcy⟩
  · exact ⟨hfx.trans hmx.2.1, hMx.2.1.trans hcx,
      hfy.trans hmy.2.1, hMy.2.1.trans hcy⟩
  · exact ⟨hfx.trans hmx.2.2.1, hMx.2.2.1.trans hcx,
      hfy.trans hmy.2.2.1, hMy.2.2.1.trans hcy⟩
  · exact ⟨hfx.trans hmx.2.2.2, hMx.2.2.2.trans hcx,
      hfy.trans hmy.2.2.2, hMy.2.2.2.trans hcy⟩

theorem Aff.corner_minmaxA (t : Mat) (w h : ℕ) (c : ℚ × ℚ)
    (hc : c ∈ corners w h) :
    ((Aff.minX t w h : ℤ) : ℚ) ≤ Aff.projX t c.1 c.2 ∧
    Aff.projX t c.1 c.2 ≤ ((Aff.maxX t w h : ℤ) : ℚ) ∧
    ((Aff.minY t w h : ℤ) : ℚ) ≤ Aff.projY t c.1 c.2 ∧
    Aff.projY t c.1 c.2 ≤ ((Aff.maxY t w h : ℤ) : ℚ) := by
  have hfx := Int.floor_le (min4 (Aff.projX t 0 0) (Aff.projX t w 0)
    (Aff.projX t w h) (Aff.projX t 0 h))
  have hcx := Int.le_ceil (max4 (Aff.projX t 0 0) (Aff.projX t w 0)
    (Aff.projX t w h) (Aff.projX t 0 h))
  have hfy := Int.floor_le (min4 (Aff.projY t 0 0) (Aff.projY t w 0)
    (Aff.projY t w h) (Aff.projY t 0 h))
  have hcy := Int.le_ceil (max4 (Aff.projY t 0 0) (Aff.projY t w 0)
    (Aff.projY t w h) (Aff.projY t 0 h))
  have hmx := min4_le_all (Aff.projX t 0 0) (Aff.projX t w 0)
    (Aff.projX t w h) (Aff.projX t 0 h)
  have hMx := le_max4_all (Aff.projX t 0 0) (Aff.projX t w 0)
    (Aff.projX t w h) (Aff.projX t 0 h)
  have hmy := min4_le_all (Aff.projY t 0 0) (Aff.projY t w 0)
    (Aff.projY t w h) (Aff.projY t 0 h)
  have hMy := le_max4_all (Aff.projY t 0 0) (Aff.projY t w 0)
    (Aff.projY t w h) (Aff.projY t 0 h)
  simp only [corners, List.mem_cons, List.not_mem_nil, or_false] at hc
  unfold Aff.minX Aff.maxX Aff.minY Aff.maxY
  rcases hc with rfl | rfl | rfl | rfl
  · exact ⟨hfx.trans hmx.1, hMx.1.trans hcx, hfy.trans hmy.1, hMy.1.trans hcy⟩
  · exact ⟨hfx.trans hmx.2.1, hMx.2.1.trans hcx,
      hfy.trans hmy.2.1, hMy.2.1.trans hcy⟩
  · exact ⟨hfx.trans hmx.2.2.1, hMx.2.2.1.trans hcx,
      hfy.trans hmy.2.2.1, hMy.2.2.1.trans hcy⟩
  · exact ⟨hfx.trans hmx.2.2.2, hMx.2.2.2.trans hcx,
      hfy.trans hmy.2.2.2, hMy.2.2.2.trans hcy⟩

theorem Persp.neg_minX_le_anchorXP (t : Mat) (w h : ℕ) :
    -(Persp.minX t w h) ≤ Persp.anchorX t w h := by
  unfold Persp.anchorX; split <;> omega

theorem Persp.neg_minY_le_anchorYP (t : Mat) (w h : ℕ) :
    -(Persp.minY t w h) ≤ Persp.anchorY t w h := by
  unfold Persp.anchorY; split <;> omega

theorem Aff.neg_minX_le_anchorXA (t : Mat) (w h : ℕ) :
    -(Aff.minX t w h) ≤ Aff.anchorX t w h := by
  unfold Aff.anchorX; split <;> omega

theorem Aff.neg_minY_le_anchorYA (t : Mat) (w h : ℕ) :
    -(Aff.minY t w h) ≤ Aff.anchorY t w h := by
  unfold Aff.anchorY; split <;> omega

theorem Aff.shifted_projX_lit (a b c d e f : ℚ) (w h : ℕ) (x y : ℚ) :
    Aff.projX (Aff.shifted [[a, b, c], [d, e, f]] w h) x y =
      Aff.projX [[a, b, c], [d, e, f]] x y +
        ((Aff.anchorX [[a, b, c], [d, e, f]] w h : ℤ) : ℚ) := by
  simp [Aff.shifted, Aff.addShift, matAdd, Aff.projX, mget]
  ring

theorem Aff.shifted_projY_lit (a b c d e f : ℚ) (w h : ℕ) (x y : ℚ) :
    Aff.projY (Aff.shifted [[a, b, c], [d, e, f]] w h) x y =
      Aff.projY [[a, b, c], [d, e, f]] x y +
        ((Aff.anchorY [[a, b, c], [d, e, f]] w h : ℤ) : ℚ) := by
  simp [Aff.shifted, Aff.addShift, matAdd, Aff.projY, mget]
  ring

end cornerBounds

/-- C2: when the four projected corner coordinates are finite (each
corner's homogeneous coordinate is nonzero — always the case for the
affine form), the corners projected through the shifted transform lie
within `[0, paddedWidth] x [0, paddedHeight]` of the padded destination,
in both variants. -/
theorem claim_C2 (tP : Mat) (aA bA cA dA eA fA : ℚ) (w h : ℕ) (dst : Img)
    (hdst : dst.shape.length = 2 ∨ dst.shape.length = 3)
    (hden : ∀ c ∈ corners w h, Persp.den tP c.1 c.2 ≠ 0) :
    (∀ c ∈ corners w h,
       0 ≤ Persp.projX (Persp.shifted tP w h) c.1 c.2 ∧
       Persp.projX (Persp.shifted tP w h) c.1 c.2 ≤
         ((Persp.dstPadded tP w h dst).w : ℚ) ∧
       0 ≤ Persp.projY (Persp.shifted tP w h) c.1 c.2 ∧
       Persp.projY (Persp.shifted tP w h) c.1 c.2 ≤
         ((Persp.dstPadded tP w h dst).h : ℚ)) ∧
    (∀ c ∈ corners w h,
       0 ≤ Aff.projX (Aff.shifted [[aA, bA, cA], [dA, eA, fA]] w h) c.1 c.2 ∧
       Aff.projX (Aff.shifted [[aA, bA, cA], [dA, eA, fA]] w h) c.1 c.2 ≤
         ((Aff.dstPadded [[aA, bA, cA], [dA, eA, fA]] w h dst).w : ℚ) ∧
       0 ≤ Aff.projY (Aff.shifted [[aA, bA, cA], [dA, eA, fA]] w h) c.1 c.2 ∧
       Aff.projY (Aff.shifted [[aA, bA, cA], [dA, eA, fA]] w h) c.1 c.2 ≤
         ((Aff.dstPadded [[aA, bA, cA], [dA, eA, fA]] w h dst).h : ℚ)) := by
  constructor
  · have h22 : mget tP 2 2 ≠ 0 := by
      have h0 := hden (0, 0) (by simp [corners])
      simpa [Persp.den] using h0
    have hWZ : ((Persp.dstPadded tP w h dst).w : ℤ) =
        Persp.anchorX tP w h + (dst.w : ℤ) +
          (max (Persp.maxX tP w h) (dst.w : ℤ) - (dst.w : ℤ)) :=
      padded_w _ _ _ _ (Persp.anchorX_nonnegP tP w h) dst hdst
    have hHZ : ((Persp.dstPadded tP w h dst).h : ℤ) =
        Persp.anchorY tP w h + (dst.h : ℤ) +
          (max (Persp.maxY tP w h) (dst.h : ℤ) - (dst.h : ℤ)) :=
      padded_h _ _ _ _ (Persp.anchorY_nonnegP tP w h) dst hdst
    have hWq : ((Persp.dstPadded tP w h dst).w : ℚ) =
        ((Persp.anchorX tP w h : ℤ) : ℚ) +
          ((max (Persp.maxX tP w h) (dst.w : ℤ) : ℤ) : ℚ) := by
      have hz : ((Persp.dstPadded tP w h dst).w : ℤ) =
          Persp.anchorX tP w h + max (Persp.maxX tP w h) (dst.w : ℤ) := by
        rw [hWZ]; ring
      exact_mod_cast hz
    have hHq : ((Persp.dstPadded tP w h dst).h : ℚ) =
        ((Persp.anchorY tP w h : ℤ) : ℚ) +
          ((max (Persp.maxY tP w h) (dst.h : ℤ) : ℤ) : ℚ) := by
      have hz : ((Persp.dstPadded tP w h dst).h : ℤ) =
          Persp.anchorY tP w h + max (Persp.maxY tP w h) (dst.h : ℤ) := by
        rw [hHZ]; ring
      exact_mod_cast hz
    intro c hc
    have hd := hden c hc
    have hx := Persp.shifted_projX tP w h c.1 c.2 h22 hd
    have hy := Persp.shifted_projY tP w h c.1 c.2 h22 hd
    obtain ⟨hbx1, hbx2, hby1, hby2⟩ := Persp.corner_minmaxP tP w h c hc
    have haxq : (-(Persp.minX tP w h : ℚ)) ≤ ((Persp.anchorX tP w h : ℤ) : ℚ) := by
      exact_mod_cast Persp.neg_minX_le_anchorXP tP w h
    have hayq : (-(Persp.minY tP w h : ℚ)) ≤ ((Persp.anchorY tP w h : ℤ) : ℚ) := by
      exact_mod_cast Persp.neg_minY_le_anchorYP tP w h
    have hmaxq : ((Persp.maxX tP w h : ℤ) : ℚ) ≤
        ((max (Persp.maxX tP w h) (dst.w : ℤ) : ℤ) : ℚ) := by
      exact_mod_cast le_max_left (Persp.maxX tP w h) (dst.w : ℤ)
    have hmayq : ((Persp.maxY tP w h : ℤ) : ℚ) ≤
        ((max (Persp.maxY tP w h) (dst.h : ℤ) : ℤ) : ℚ) := by
      exact_mod_cast le_max_left (Persp.maxY tP w h) (dst.h : ℤ)
    refine ⟨?_, ?_, ?_, ?_⟩
    · rw [hx]; linarith
    · rw [hx, hWq]; linarith
    · rw [hy]; linarith
    · rw [hy, hHq]; linarith
  · have hWZ : ((Aff.dstPadded [[aA, bA, cA], [dA, eA, fA]] w h dst).w : ℤ) =
        Aff.anchorX [[aA, bA, cA], [dA, eA, fA]] w h + (dst.w : ℤ) +
          (max (Aff.maxX [[aA, bA, cA], [dA, eA, fA]] w h) (dst.w : ℤ) - (dst.w : ℤ)) :=
      padded_w _ _ _ _ (Aff.anchorX_nonnegA _ w h) dst hdst
    have hHZ : ((Aff.dstPadded [[aA, bA, cA], [dA, eA, fA]] w h dst).h : ℤ) =
        Aff.anchorY [[aA, bA, cA], [dA, eA, fA]] w h + (dst.h : ℤ) +
          (max (Aff.maxY [[aA, bA, cA], [dA, eA, fA]] w h) (dst.h : ℤ) - (dst.h : ℤ)) :=
      padded_h _ _ _ _ (Aff.anchorY_nonnegA _ w h) dst hdst
    have hWq : ((Aff.dstPadded [[aA, bA, cA], [dA, eA, fA]] w h dst).w : ℚ) =
        ((Aff.anchorX [[aA, bA, cA], [dA, eA, fA]] w h : ℤ) : ℚ) +
          ((max (Aff.maxX [[aA, bA, cA], [dA, eA, fA]] w h) (dst.w : ℤ) : ℤ) : ℚ) := by
      have hz : ((Aff.dstPadded [[aA, bA, cA], [dA, eA, fA]] w h dst).w : ℤ) =
          Aff.anchorX [[aA, bA, cA], [dA, eA, fA]] w h +
            max (Aff.maxX [[aA, bA, cA], [dA, eA, fA]] w h) (dst.w : ℤ) := by
        rw [hWZ]; ring
      exact_mod_cast hz
    have hHq : ((Aff.dstPadded [[aA, bA, cA], [dA, eA, fA]] w h dst).h : ℚ) =
        ((Aff.anchorY [[aA, bA, cA], [dA, eA, fA]] w h : ℤ) : ℚ) +
          ((max (Aff.maxY [[aA, bA, cA], [dA, eA, fA]] w h) (dst.h : ℤ) : ℤ) : ℚ) := by
      have hz : ((Aff.dstPadded [[aA, bA, cA], [dA, eA, fA]] w h dst).h : ℤ) =
          Aff.anchorY [[aA, bA, cA], [dA, eA, fA]] w h +
            max (Aff.maxY [[aA, bA, cA], [dA, eA, fA]] w h) (dst.h : ℤ) := by
        rw [hHZ]; ring
      exact_mod_cast hz
    intro c hc
    have hx := Aff.shifted_projX_lit aA bA cA dA eA fA w h c.1 c.2
    have hy := Aff.shifted_projY_lit aA bA cA dA eA fA w h c.1 c.2
    obtain ⟨hbx1, hbx2, hby1, hby2⟩ :=
      Aff.corner_minmaxA [[aA, bA, cA], [dA, eA, fA]] w h c hc
    have haxq : (-(Aff.minX [[aA, bA, cA], [dA, eA, fA]] w h : ℚ)) ≤
        ((Aff.anchorX [[aA, bA, cA], [dA, eA, fA]] w h : ℤ) : ℚ) := by
      exact_mod_cast Aff.neg_minX_le_anchorXA _ w h
    have hayq : (-(Aff.minY [[aA, bA, cA], [dA, eA, fA]] w h : ℚ)) ≤
        ((Aff.anchorY [[aA, bA, cA], [dA, eA, fA]] w h : ℤ) : ℚ) := by
      exact_mod_cast Aff.neg_minY_le_anchorYA _ w h
    have hmaxq : ((Aff.maxX [[aA, bA, cA], [dA, eA, fA]] w h : ℤ) : ℚ) ≤
        ((max (Aff.maxX [[aA, bA, cA], [dA, eA, fA]] w h) (dst.w : ℤ) : ℤ) : ℚ) := by
      exact_mod_cast le_max_left (Aff.maxX [[aA, bA, cA], [dA, eA, fA]] w h) (dst.w : ℤ)
    have hmayq : ((Aff.maxY [[aA, bA, cA], [dA, eA, fA]] w h : ℤ) : ℚ) ≤
        ((max (Aff.maxY [[aA, bA, cA], [dA, eA, fA]] w h) (dst.h : ℤ) : ℤ) : ℚ) := by
      exact_mod_cast le_max_left (Aff.maxY [[aA, bA, cA], [dA, eA, fA]] w h) (dst.h : ℤ)
    refine ⟨?_, ?_, ?_, ?_⟩
    · rw [hx]; linarith
    · rw [hx, hWq]; linarith
    · rw [hy]; linarith
    · rw [hy, hHq]; linarith

/-- C2 witness: the translation homography and affine matrix on a 2x2
source and destination, at corner (0, 0). -/
theorem claim_C2_witness :
    (0 ≤ Persp.projX (Persp.shifted trEx 2 2) 0 0 ∧
     Persp.projX (Persp.shifted trEx 2 2) 0 0 ≤
       ((Persp.dstPadded trEx 2 2 img2).w : ℚ) ∧
     0 ≤ Persp.projY (Persp.shifted trEx 2 2) 0 0 ∧
     Persp.projY (Persp.shifted trEx 2 2) 0 0 ≤
       ((Persp.dstPadded trEx 2 2 img2).h : ℚ)) ∧
    (0 ≤ Aff.projX (Aff.shifted [[1, 0, 5], [0, 1, 0]] 2 2) 0 0 ∧
     Aff.projX (Aff.shifted [[1, 0, 5], [0, 1, 0]] 2 2) 0 0 ≤
       ((Aff.dstPadded [[1, 0, 5], [0, 1, 0]] 2 2 img2).w : ℚ) ∧
     0 ≤ Aff.projY (Aff.shifted [[1, 0, 5], [0, 1, 0]] 2 2) 0 0 ∧
     Aff.projY (Aff.shifted [[1, 0, 5], [0, 1, 0]] 2 2) 0 0 ≤
       ((Aff.dstPadded [[1, 0, 5], [0, 1, 0]] 2 2 img2).h : ℚ)) := by
  have hden : ∀ c ∈ corners 2 2, Persp.den trEx c.1 c.2 ≠ 0 := by
    intro c hc
    simp only [corners, List.mem_cons, List.not_mem_nil, or_false] at hc
    rcases hc with rfl | rfl | rfl | rfl <;> norm_num [Persp.den, mget, trEx]
  have H := claim_C2 trEx 1 0 5 0 1 0 2 2 img2 (Or.inl rfl) hden
  exact ⟨H.1 (0, 0) (by simp [corners]), H.2 (0, 0) (by simp [corners])⟩

section zeroPad

theorem zipShape_zero (sh : List ℕ) :
    ∀ (pads : List (ℕ × ℕ)), (∀ p ∈ pads, p = (0, 0)) →
    pads.length = sh.length →
    List.zipWith (fun s p => p.1 + s + p.2) sh pads = sh := by
  induction sh with
  | nil => intro pads _ _; simp
  | cons s ss ih =>
    intro pads hz hl
    cases pads with
    | nil => simp at hl
    | cons q qs =>
      have hq := hz q (List.mem_cons_self q qs)
      subst hq
      simp only [List.zipWith_cons_cons]
      refine congrArg₂ List.cons (by simp) ?_
      exact ih qs (fun p hp => hz p (List.mem_cons_of_mem _ hp)) (by simpa using hl)

theorem padInterior_zero (sh : List ℕ) :
    ∀ (pads : List (ℕ × ℕ)) (idx : List ℕ),
    (∀ p ∈ pads, p = (0, 0)) → pads.length = sh.length →
    idx.length = sh.length →
    (List.zip idx sh).all (fun t => t.1 < t.2) = true →
    padInterior sh pads idx = true ∧
    List.zipWith (fun x p => x - p.1) idx pads = idx := by
  induction sh with
  | nil =>
    intro pads idx hz hl hli _
    have : pads = [] := List.length_eq_zero.mp hl
    have hi : idx = [] := List.length_eq_zero.mp hli
    subst this; subst hi
    exact ⟨rfl, rfl⟩
  | cons s ss ih =>
    intro pads idx hz hl hli hall
    cases pads with
    | nil => simp at hl
    | cons q qs =>
      cases idx with
      | nil => simp at hli
      | cons x xs =>
        have hq := hz q (List.mem_cons_self q qs)
        subst hq
        simp only [List.zip_cons_cons, List.all_cons, Bool.and_eq_true,
          decide_eq_true_eq] at hall
        obtain ⟨hx, hrest⟩ := hall
        obtain ⟨hint, hzip⟩ := ih qs xs
          (fun p hp => hz p (List.mem_cons_of_mem _ hp))
          (by simpa using hl) (by simpa using hli) hrest
        constructor
        · simp only [padInterior, List.length_cons, List.zip_cons_cons,
            List.all_cons, Bool.and_eq_true, decide_eq_true_eq]
          simp only [padInterior, Bool.and_eq_true] at hint
          refine ⟨by simpa using hint.1, ⟨by omega, by omega⟩, hint.2⟩
        · simp only [List.zipWith_cons_cons]
          exact congrArg₂ List.cons (by omega) hzip

theorem npPad_zeroPads (img : Img) (pads : List (ℕ × ℕ))
    (hz : ∀ p ∈ pads, p = (0, 0)) (hl : pads.length = img.shape.length) :
    (npPad img pads).extEq img := by
  have hsh : (npPad img pads).shape = img.shape :=
    zipShape_zero img.shape pads hz hl
  refine ⟨hsh, ?_⟩
  intro idx hlen hbnd
  rw [hsh] at hlen hbnd
  obtain ⟨hint, hzip⟩ := padInterior_zero img.shape pads idx hz hl hlen hbnd
  show (if padInterior img.shape pads idx then
    img.px (List.zipWith (fun x p => x - p.1) idx pads) else 0) = img.px idx
  rw [hint, hzip]
  simp

end zeroPad

section identityEval

theorem min4_corner_x (w : ℚ) (hw : 0 ≤ w) : min4 0 w w 0 = 0 := by
  refine le_antisymm (min4_le_all 0 w w 0).2.2.2 ?_
  exact le_min le_rfl (le_min hw (le_min hw le_rfl))

theorem max4_corner_x (w : ℚ) (hw : 0 ≤ w) : max4 0 w w 0 = w := by
  refine le_antisymm ?_ (le_max4_all 0 w w 0).2.1
  exact max_le hw (max_le le_rfl (max_le le_rfl hw))

theorem min4_corner_y (h : ℚ) (hh : 0 ≤ h) : min4 0 0 h h = 0 := by
  refine le_antisymm (min4_le_all 0 0 h h).1 ?_
  exact le_min le_rfl (le_min le_rfl (le_min hh hh))

theorem max4_corner_y (h : ℚ) (hh : 0 ≤ h) : max4 0 0 h h = h := by
  refine le_antisymm ?_ (le_max4_all 0 0 h h).2.2.2
  exact max_le hh (max_le hh (max_le le_rfl le_rfl))

theorem Persp.projX_eye3 (x y : ℚ) : Persp.projX eye3 x y = x := by
  norm_num [Persp.projX, Persp.den, mget, eye3]

theorem Persp.projY_eye3 (x y : ℚ) : Persp.projY eye3 x y = y := by
  norm_num [Persp.projY, Persp.den, mget, eye3]

theorem Persp.minX_eye3 (w h : ℕ) : Persp.minX eye3 w h = 0 := by
  unfold Persp.minX
  rw [Persp.projX_eye3, Persp.projX_eye3, Persp.projX_eye3, Persp.projX_eye3,
    min4_corner_x _ (by positivity)]
  exact Int.floor_zero

theorem Persp.maxX_eye3 (w h : ℕ) : Persp.maxX eye3 w h = w := by
  unfold Persp.maxX
  rw [Persp.projX_eye3, Persp.projX_eye3, Persp.projX_eye3, Persp.projX_eye3,
    max4_corner_x _ (by positivity)]
  exact Int.ceil_natCast w

theorem Persp.minY_eye3 (w h : ℕ) : Persp.minY eye3 w h = 0 := by
  unfold Persp.minY
  rw [Persp.projY_eye3, Persp.projY_eye3, Persp.projY_eye3, Persp.projY_eye3,
    min4_corner_y _ (by positivity)]
  exact Int.floor_zero

theorem Persp.maxY_eye3 (w h : ℕ) : Persp.maxY eye3 w h = h := by
  unfold Persp.maxY
  rw [Persp.projY_eye3, Persp.projY_eye3, Persp.projY_eye3, Persp.projY_eye3,
    max4_corner_y _ (by positivity)]
  exact Int.ceil_natCast h

theorem Persp.anchorX_eye3 (w h : ℕ) : Persp.anchorX eye3 w h = 0 := by
  unfold Persp.anchorX
  rw [Persp.minX_eye3]
  simp

theorem Persp.anchorY_eye3 (w h : ℕ) : Persp.anchorY eye3 w h = 0 := by
  unfold Persp.anchorY
  rw [Persp.minY_eye3]
  simp

theorem Persp.normalize_eye3 : Persp.normalize eye3 = eye3 := by
  norm_num [Persp.normalize, matDivScalar, mget, eye3]

theorem Persp.effT_eye3 (flags : ℕ) : Persp.effT eye3 flags = eye3 := by
  unfold Persp.effT
  rw [Persp.normalize_eye3]
  split
  · norm_num [inv3, det3, mget, eye3]
  · rfl

theorem Persp.shifted_eye3 (w h : ℕ) : Persp.shifted eye3 w h = eye3 := by
  rw [Persp.shifted_eq, Persp.anchorX_eye3, Persp.anchorY_eye3]
  norm_num [matDivScalar, mget, eye3]

theorem Aff.projX_idAff (x y : ℚ) : Aff.projX idAff x y = x := by
  norm_num [Aff.projX, mget, idAff]

theorem Aff.projY_idAff (x y : ℚ) : Aff.projY idAff x y = y := by
  norm_num [Aff.projY, mget, idAff]

theorem Aff.minX_idAff (w h : ℕ) : Aff.minX idAff w h = 0 := by
  unfold Aff.minX
  rw [Aff.projX_idAff, Aff.projX_idAff, Aff.projX_idAff, Aff.projX_idAff,
    min4_corner_x _ (by positivity)]
  exact Int.floor_zero

theorem Aff.maxX_idAff (w h : ℕ) : Aff.maxX idAff w h = w := by
  unfold Aff.maxX
  rw [Aff.projX_idAff, Aff.projX_idAff, Aff.projX_idAff, Aff.projX_idAff,
    max4_corner_x _ (by positivity)]
  exact Int.ceil_natCast w

theorem Aff.minY_idAff (w h : ℕ) : Aff.minY idAff w h = 0 := by
  unfold Aff.minY
  rw [Aff.projY_idAff, Aff.projY_idAff, Aff.projY_idAff, Aff.projY_idAff,
    min4_corner_y _ (by positivity)]
  exact Int.floor_zero

theorem Aff.maxY_idAff (w h : ℕ) : Aff.maxY idAff w h = h := by
  unfold Aff.maxY
  rw [Aff.projY_idAff, Aff.projY_idAff, Aff.projY_idAff, Aff.projY_idAff,
    max4_corner_y _ (by positivity)]
  exact Int.ceil_natCast h

theorem Aff.anchorX_idAff (w h : ℕ) : Aff.anchorX idAff w h = 0 := by
  unfold Aff.anchorX
  rw [Aff.minX_idAff]
  simp

theorem Aff.anchorY_idAff (w h : ℕ) : Aff.anchorY idAff w h = 0 := by
  unfold Aff.anchorY
  rw [Aff.minY_idAff]
  simp

theorem Aff.effT_idAff (flags : ℕ) : Aff.effT idAff flags = idAff := by
  unfold Aff.effT
  split
  · norm_num [invertAffine, mget, idAff]
  · rfl

theorem Aff.shifted_idAff (w h : ℕ) : Aff.shifted idAff w h = idAff := by
  unfold Aff.shifted
  rw [Aff.anchorX_idAff, Aff.anchorY_idAff]
  norm_num [Aff.addShift, matAdd, idAff]

end identityEval

/-- C7: with the identity transform and source and destination of equal
height and width, the padded destination equals the destination (no padding
on any side) and the warped source equals the source, in both variants;
the resampler is assumed to return the source unchanged when asked to
resample by the identity at the source's own size. -/
theorem claim_C7 (rP rA : Resampler) (src dst : Img) (flags bm : ℕ) (bv : ℚ)
    (hdst : dst.shape.length = 2 ∨ dst.shape.length = 3)
    (hh : src.h = dst.h) (hw : src.w = dst.w)
    (hrP : ∀ f, (rP src eye3 src.w src.h f bm bv).extEq src)
    (hrA : ∀ f, (rA src idAff src.w src.h f bm bv).extEq src) :
    (∃ p, Persp.warpPerspectivePadded rP src dst eye3 flags bm bv = Except.ok p ∧
       p.1.extEq dst ∧ p.2.extEq src) ∧
    (∃ p, Aff.warpAffinePadded rA src dst idAff flags bm bv = Except.ok p ∧
       p.1.extEq dst ∧ p.2.extEq src) := by
  have hpadsP : Persp.padWidths eye3 src.w src.h dst =
      if dst.shape.length = 3 then [(0, 0), (0, 0), (0, 0)] else [(0, 0), (0, 0)] := by
    unfold Persp.padWidths padWidthsOf
    rw [Persp.anchorX_eye3, Persp.anchorY_eye3, Persp.maxX_eye3,
      Persp.maxY_eye3, hw, hh]
    simp
  have hpadsA : Aff.padWidths idAff src.w src.h dst =
      if dst.shape.length = 3 then [(0, 0), (0, 0), (0, 0)] else [(0, 0), (0, 0)] := by
    unfold Aff.padWidths padWidthsOf
    rw [Aff.anchorX_idAff, Aff.anchorY_idAff, Aff.maxX_idAff,
      Aff.maxY_idAff, hw, hh]
    simp
  have hzif : ∀ p ∈ (if dst.shape.length = 3 then
      [((0:ℕ), (0:ℕ)), (0, 0), (0, 0)] else [(0, 0), (0, 0)]), p = (0, 0) := by
    split <;>
      (intro p hp
       simp only [List.mem_cons, List.not_mem_nil, or_false] at hp) <;>
      rcases hp with rfl | rfl | rfl <;> rfl
  have hlif : (if dst.shape.length = 3 then
      [((0:ℕ), (0:ℕ)), (0, 0), (0, 0)] else [(0, 0), (0, 0)]).length =
      dst.shape.length := by
    rcases hdst with h2 | h3
    · rw [if_neg (by omega)]; simpa using h2.symm
    · rw [if_pos h3]; simpa using h3.symm
  have hextP : (Persp.dstPadded eye3 src.w src.h dst).extEq dst := by
    unfold Persp.dstPadded
    rw [show Persp.padWidths eye3 src.w src.h dst = _ from hpadsP]
    exact npPad_zeroPads dst _ hzif hlif
  have hextA : (Aff.dstPadded idAff src.w src.h dst).extEq dst := by
    unfold Aff.dstPadded
    rw [show Aff.padWidths idAff src.w src.h dst = _ from hpadsA]
    exact npPad_zeroPads dst _ hzif hlif
  have hdwP : (Persp.dstPadded eye3 src.w src.h dst).w = src.w :=
    (congrArg (fun sh : List ℕ => sh.getD 1 0) hextP.1).trans hw.symm
  have hdhP : (Persp.dstPadded eye3 src.w src.h dst).h = src.h :=
    (congrArg (fun sh : List ℕ => sh.getD 0 0) hextP.1).trans hh.symm
  have hdwA : (Aff.dstPadded idAff src.w src.h dst).w = src.w :=
    (congrArg (fun sh : List ℕ => sh.getD 1 0) hextA.1).trans hw.symm
  have hdhA : (Aff.dstPadded idAff src.w src.h dst).h = src.h :=
    (congrArg (fun sh : List ℕ => sh.getD 0 0) hextA.1).trans hh.symm
  constructor
  · have heq : Persp.warpPerspectivePadded rP src dst eye3 flags bm bv =
        Except.ok (Persp.dstPadded eye3 src.w src.h dst,
          rP src eye3 (Persp.dstPadded eye3 src.w src.h dst).w
            (Persp.dstPadded eye3 src.w src.h dst).h
            (Persp.effFlags flags) bm bv) := by
      simp only [Persp.warpPerspectivePadded,
        show matShape eye3 = (3, 3) from rfl, if_true]
      rw [Persp.effT_eye3, Persp.shifted_eye3]
    refine ⟨_, heq, hextP, ?_⟩
    show (rP src eye3 (Persp.dstPadded eye3 src.w src.h dst).w
      (Persp.dstPadded eye3 src.w src.h dst).h
      (Persp.effFlags flags) bm bv).extEq src
    rw [hdwP, hdhP]
    exact hrP (Persp.effFlags flags)
  · have heq : Aff.warpAffinePadded rA src dst idAff flags bm bv =
        Except.ok (Aff.dstPadded idAff src.w src.h dst,
          rA src idAff (Aff.dstPadded idAff src.w src.h dst).w
            (Aff.dstPadded idAff src.w src.h dst).h
            (Aff.effFlags flags) bm bv) := by
      simp only [Aff.warpAffinePadded,
        show matShape idAff = (2, 3) from rfl, if_true]
      rw [Aff.effT_idAff, Aff.shifted_idAff]
    refine ⟨_, heq, hextA, ?_⟩
    show (rA src idAff (Aff.dstPadded idAff src.w src.h dst).w
      (Aff.dstPadded idAff src.w src.h dst).h
      (Aff.effFlags flags) bm bv).extEq src
    rw [hdwA, hdhA]
    exact hrA (Aff.effFlags flags)

/-- C7 witness: a source-returning resampler with a 2x2 source equal to the
destination, identity transforms, default flags. -/
theorem claim_C7_witness :
    (∃ p, Persp.warpPerspectivePadded idRes img2 img2 eye3 1 0 0 = Except.ok p ∧
       p.1.extEq img2 ∧ p.2.extEq img2) ∧
    (∃ p, Aff.warpAffinePadded idRes img2 img2 idAff 1 0 0 = Except.ok p ∧
       p.1.extEq img2 ∧ p.2.extEq img2) :=
  claim_C7 idRes idRes img2 img2 1 0 0 (Or.inl rfl) rfl rfl
    (fun _ => ⟨rfl, fun _ _ _ => rfl⟩) (fun _ => ⟨rfl, fun _ _ _ => rfl⟩)

section nonFinite

end nonFinite

